import Mathlib

/-!
Shallow embedding of the book-recommender core pipeline
(`src/book_recommender.py`): tag building, catalog aggregation with
identifier-keyed deduplication, range/keyword filtering, random selection
with repeat avoidance, and display formatting.  Network responses are
passed in as explicit parameters; `random.choice` is modelled by an
arbitrary index into the pool it draws from.
-/

namespace BookRec

/-- A raw catalog record (`doc` in the source): every field the core reads,
each optional because the external catalog may omit it.  `none` models an
absent JSON field. -/
structure Doc where
  key : Option String
  title : Option String
  author_name : Option (List String)
  first_publish_year : Option Int
  number_of_pages_median : Option Int
  cover_i : Option Int
  subject : Option (List String)
  edition_count : Option Int
deriving DecidableEq, Repr

/-- Genre labels offered by the quiz (keys of `GENRE_TO_SUBJECT`). -/
inductive Genre
  | classics | fantasy | science_fiction | romance | mystery | thriller
  | horror | historical | nonfiction | young_adult | children | poetry | comics
deriving DecidableEq, Repr, Fintype

/-- `GENRE_TO_SUBJECT`: each genre label's catalog subject string. -/
def genre_to_subject : Genre → String
  | .classics => "classics"
  | .fantasy => "fantasy"
  | .science_fiction => "science_fiction"
  | .romance => "romance"
  | .mystery => "mystery"
  | .thriller => "thriller"
  | .horror => "horror"
  | .historical => "historical_fiction"
  | .nonfiction => "nonfiction"
  | .young_adult => "young_adult"
  | .children => "children"
  | .poetry => "poetry"
  | .comics => "comics"

/-- Mood labels offered by the quiz (keys of `MOOD_EXTRA_SUBJECTS`). -/
inductive Mood
  | cozy | dark | funny | soft | adventure | scary | thought
deriving DecidableEq, Repr, Fintype

/-- `MOOD_EXTRA_SUBJECTS`: each mood label's list of extra subject strings. -/
def mood_extra_subjects : Mood → List String
  | .cozy => ["cozy", "friendship"]
  | .dark => ["dark", "psychological"]
  | .funny => ["humor"]
  | .soft => ["love_stories"]
  | .adventure => ["adventure"]
  | .scary => ["horror"]
  | .thought => ["philosophy"]

/-- Year-bracket labels (keys of `YEAR_RANGES`). -/
inductive YearR
  | before1950 | y1950to1980 | y1980to2000 | y2000to2010 | y2010to2020
  | after2020 | noPref
deriving DecidableEq, Repr

/-- `YEAR_RANGES`: each label's (min, max) bounds, `none` = unbounded. -/
def year_ranges : YearR → Option Int × Option Int
  | .before1950 => (none, some 1949)
  | .y1950to1980 => (some 1950, some 1980)
  | .y1980to2000 => (some 1980, some 2000)
  | .y2000to2010 => (some 2000, some 2010)
  | .y2010to2020 => (some 2010, some 2020)
  | .after2020 => (some 2021, none)
  | .noPref => (none, none)

/-- Length-bracket labels (keys of `LENGTH_RANGES`). -/
inductive LengthR
  | snack | normal | feast | any
deriving DecidableEq, Repr

/-- `LENGTH_RANGES`: each label's (min, max) page bounds. -/
def length_ranges : LengthR → Option Int × Option Int
  | .snack => (some 0, some 199)
  | .normal => (some 200, some 400)
  | .feast => (some 401, none)
  | .any => (none, none)

/-- A quiz submission (`prefs` in the source).  Enum keys are represented by
the enum types themselves, so every key resolves in its lookup table, which
is the hypothesis of the claims about `build_tags`. -/
structure Prefs where
  genres : List Genre
  mood : List Mood
  year_range : YearR
  length : LengthR
  kids : String
deriving DecidableEq, Repr

/-- The derived search tags (`tags` in the source). -/
structure Tags where
  subjects : List String
  extra : List String
  year : Option Int × Option Int
  length : Option Int × Option Int
  kids : String
deriving DecidableEq, Repr

/-- `build_tags`: list comprehension over genres, `sum(..., [])`
concatenation over moods, verbatim bracket bounds, audience flag copied. -/
def build_tags (prefs : Prefs) : Tags :=
  { subjects := prefs.genres.map genre_to_subject
  , extra := (prefs.mood.map mood_extra_subjects).flatten
  , year := year_ranges prefs.year_range
  , length := length_ranges prefs.length
  , kids := prefs.kids }

/-- `passes_range`: `None` passes; otherwise fail when below a present lower
bound or above a present upper bound. -/
def passes_range (v a b : Option Int) : Bool :=
  match v with
  | none => true
  | some x =>
    if a.elim false (fun a0 => decide (x < a0)) then false
    else if b.elim false (fun b0 => decide (b0 < x)) then false
    else true

/-- The fixed children's-content keyword list of `is_kids_book`. -/
def kids_keywords : List String :=
  ["children", "childrens", "kid", "kids",
   "juvenile", "coloring book", "colouring book",
   "notebook", "activity book", "for kids"]

/-- Substring test: does `needle` occur inside `hay` (Python `in`)? -/
def containsSub (needle : String) (hay : String) : Bool :=
  go needle.toList hay.toList
where
  go (n : List Char) : List Char → Bool
    | [] => n.isEmpty
    | c :: rest => n.isPrefixOf (c :: rest) || go n rest

/-- `is_kids_book`: case-insensitive keyword search over the title and over
the space-joined subject tags (empty text when the subject list is absent
or empty). -/
def is_kids_book (doc : Doc) : Bool :=
  let title := (doc.title.getD "").toLower
  let subjects :=
    match doc.subject with
    | some l => if l.isEmpty then "" else (String.intercalate " " l).toLower
    | none => ""
  kids_keywords.any (fun k => containsSub k title) ||
    kids_keywords.any (fun k => containsSub k subjects)

/-- The conjunction of the two range tests of `filter_books`. -/
def in_ranges (d : Doc) (tags : Tags) : Bool :=
  passes_range d.first_publish_year tags.year.1 tags.year.2 &&
    passes_range d.number_of_pages_median tags.length.1 tags.length.2

/-- `filter_books`: keep records passing both range tests; when the audience
flag is the exclude-children value `"No"`, additionally drop kids-style
records. -/
def filter_books (docs : List Doc) (tags : Tags) : List Doc :=
  let filtered := docs.filter (fun d => in_ranges d tags)
  if tags.kids = "No" then filtered.filter (fun d => !is_kids_book d) else filtered

/-- `pick_random`: `None` on an empty sequence; otherwise draw from the
records whose key differs from `prev_key`, falling back to the whole
sequence when that filter empties it.  The index `r` models the draw of
`random.choice` (any element of the pool can be returned). -/
def pick_random (r : Nat) (docs : List Doc) (prev_key : Option String) : Option Doc :=
  if docs.isEmpty then none
  else
    let pool :=
      let f := docs.filter (fun d => decide (d.key ≠ prev_key))
      if f.isEmpty then docs else f
    pool.get? (r % pool.length)

/-- The display-ready projection of a record (`format_book`'s return dict).
`year` is the publication year or the literal placeholder string, mirroring
the Python value that is an int or the string. -/
structure DisplayBook where
  title : String
  authors : String
  year : Sum Int String
  pages : Option Int
  cover : Option String
  key : Option String
  url : String
deriving DecidableEq, Repr

/-- `COVERS_BASE_URL`. -/
def COVERS_BASE_URL : String := "https://covers.openlibrary.org/b/id/"

/-- `format_book`: project a record to a `DisplayBook`.  The `url` field
concatenates the catalog base with `d.get("key")`; when the key is absent
that concatenation raises a `TypeError`, modelled by `Except.error`.  An
absent or zero `cover_i` (falsy in Python) yields no cover URL. -/
def format_book (d : Doc) : Except String DisplayBook :=
  match d.key with
  | none => Except.error "TypeError: can only concatenate str (not NoneType) to str"
  | some k =>
    Except.ok
      { title := d.title.getD "Unknown Title"
      , authors := String.intercalate ", " (d.author_name.getD [])
      , year :=
          match d.first_publish_year with
          | some y => Sum.inl y
          | none => Sum.inr "Unknown Year"
      , pages := d.number_of_pages_median
      , cover :=
          match d.cover_i with
          | some c => if c = 0 then none else some (COVERS_BASE_URL ++ toString c ++ "-L.jpg")
          | none => none
      , key := d.key
      , url := "https://openlibrary.org" ++ k }

/-- Python dict truthiness of `d.get("key")`: a present, non-empty string. -/
def truthyKey (d : Doc) : Option String :=
  match d.key with
  | some s => if s = "" then none else some s
  | none => none

/-- One step of `docs[d["key"]] = d` on the insertion-ordered dict, modelled
as an association list: an existing key keeps its position but its value is
replaced; a new key is appended. -/
def insertDoc : List (String × Doc) → String → Doc → List (String × Doc)
  | [], k, d => [(k, d)]
  | (k0, d0) :: rest, k, d =>
    if k0 = k then (k, d) :: rest else (k0, d0) :: insertDoc rest k d

/-- The guarded insertion `if d.get("key"): docs[d["key"]] = d`. -/
def addDoc (m : List (String × Doc)) (d : Doc) : List (String × Doc) :=
  match truthyKey d with
  | some k => insertDoc m k d
  | none => m

/-- The query string built inside `fetch_books.query`: the subject clause or
the generic fallback, plus the children bias when the audience flag is the
include-children value `"Yes"`. -/
def build_query (tags : Tags) (subject : Option String) : String :=
  let q_parts :=
    (match subject with
     | some s => ["subject:" ++ s]
     | none => ["books"]) ++
    (if tags.kids = "Yes" then ["subject:children OR subject:juvenile"] else [])
  String.intercalate " " q_parts

/-- The subjects `fetch_books` queries, in aggregation order: the main
genre subjects, then the broad fallback (`None`), then the mood extras. -/
def query_plan (tags : Tags) : List (Option String) :=
  tags.subjects.map some ++ [none] ++ tags.extra.map some

/-- `fetch_books`: one catalog query per planned subject; a failed query
(`search` returns `none`, i.e. `r.ok` is false) contributes nothing; docs
with truthy keys are inserted into the identifier-keyed dict; the result is
the dict's values in insertion order.  `search` stands for the external
`requests.get` on `OPENLIBRARY_SEARCH_URL` with the given `q`. -/
def fetch_books (search : String → Option (List Doc)) (tags : Tags) : List Doc :=
  let m := (query_plan tags).foldl
    (fun m subj =>
      match search (build_query tags subj) with
      | some ds => ds.foldl addDoc m
      | none => m)
    []
  m.map Prod.snd

/-- The full stream of docs the aggregation inserts, in arrival order: the
successful queries' result lists concatenated in aggregation order. -/
def docStream (search : String → Option (List Doc)) (tags : Tags) : List Doc :=
  ((query_plan tags).map (fun subj => (search (build_query tags subj)).getD [])).flatten

/-- Modelled from the spec: the Candidate Ranker's score of section 4.4
(popularity metric times 2 plus a recency bonus of +5 for a first
publication year at least 2015, +3 for one in [2000, 2015), else +0).  The
source's `pick_random` computes no such score; this definition renders the
spec's words so the selection claims can be compared against it. -/
def score_spec (d : Doc) : Int :=
  2 * d.edition_count.getD 0 +
    (match d.first_publish_year with
     | some y => if 2015 ≤ y then 5 else if 2000 ≤ y then 3 else 0
     | none => 0)

/-- Lookup in the insertion-ordered dict model: the value stored under a
key (`docs[k]`). -/
def findKey (k : String) : List (String × Doc) → Option Doc
  | [] => none
  | (k0, d) :: rest => if k0 = k then some d else findKey k rest

/-- The dict's keys in insertion order. -/
def keysOf (m : List (String × Doc)) : List String := m.map Prod.fst

/-- Invariant of the aggregation dict: every stored record's truthy key is
the key it is stored under. -/
def entriesConsistent (m : List (String × Doc)) : Prop :=
  ∀ p ∈ m, truthyKey p.2 = some p.1

/-- A record with every optional field absent. -/
def noFieldsDoc : Doc :=
  { key := none, title := none, author_name := none, first_publish_year := none
  , number_of_pages_median := none, cover_i := none, subject := none
  , edition_count := none }

/-- Returned by the first (genre) query of the counterexample run. -/
def docFirst : Doc :=
  { noFieldsDoc with key := some "/works/k1", title := some "From the genre query" }

/-- Returned by the later broad query of the counterexample run; it shares
`docFirst`'s identifier but differs in its title. -/
def docSecond : Doc :=
  { noFieldsDoc with key := some "/works/k1", title := some "From the broad query" }

/-- Tags of a run with one genre subject, no extras, no ranges, adult
audience. -/
def tagsCE : Tags :=
  { subjects := ["fantasy"], extra := [], year := (none, none)
  , length := (none, none), kids := "No" }

/-- A stubbed catalog: the genre query returns `docFirst`, the broad
fallback returns `docSecond` under the same identifier. -/
def searchCE : String → Option (List Doc) := fun q =>
  if q = "subject:fantasy" then some [docFirst]
  else if q = "books" then some [docSecond]
  else none

/-- A popular record (edition count 100) under the given identifier. -/
def popularDoc (k : String) : Doc :=
  { noFieldsDoc with key := some k, edition_count := some 100 }

/-- A record with no popularity metric and no year: its spec score is 0. -/
def lowDoc : Doc := { noFieldsDoc with key := some "/works/low" }

/-- Eleven candidates: ten popular ones and `lowDoc`, whose spec score is
strictly below every other's. -/
def elevenDocs : List Doc :=
  [popularDoc "/works/a", popularDoc "/works/b", popularDoc "/works/c",
   popularDoc "/works/d", popularDoc "/works/e", popularDoc "/works/f",
   popularDoc "/works/g", popularDoc "/works/h", popularDoc "/works/i",
   popularDoc "/works/j", lowDoc]

/-- A preference set repeating one genre label and one mood label. -/
def dupPrefs : Prefs :=
  { genres := [Genre.fantasy, Genre.fantasy], mood := [Mood.scary, Mood.scary]
  , year_range := YearR.noPref, length := LengthR.any, kids := "No" }

/-- A preference set with pairwise distinct genre and mood labels. -/
def distinctPrefs : Prefs :=
  { genres := [Genre.fantasy, Genre.horror], mood := [Mood.cozy, Mood.scary]
  , year_range := YearR.noPref, length := LengthR.any, kids := "No" }

theorem mem_filter_books (docs : List Doc) (tags : Tags) (d : Doc) :
    d ∈ filter_books docs tags ↔
      d ∈ docs ∧ in_ranges d tags = true ∧
        (tags.kids = "No" → is_kids_book d = false) := by
  unfold filter_books
  by_cases hk : tags.kids = "No" <;>
    simp [hk, List.mem_filter, and_assoc] <;> tauto

/-- C5: `passes_range` passes an absent value whatever the bounds; a present
value fails exactly when it is below a present lower bound or above a
present upper bound; and the test decomposes into the two one-sided tests. -/
theorem passes_range_spec (v : Option Int) (x : Int) (a b : Option Int) :
    passes_range none a b = true ∧
    (passes_range (some x) a b = false ↔
      (∃ a0, a = some a0 ∧ x < a0) ∨ (∃ b0, b = some b0 ∧ b0 < x)) ∧
    passes_range v a b = (passes_range v a none && passes_range v none b) := by
  refine ⟨rfl, ?_, ?_⟩
  · rcases a with _ | a0 <;> rcases b with _ | b0 <;>
      simp [passes_range] <;> omega
  · rcases v with _ | y <;> rcases a with _ | a0 <;> rcases b with _ | b0 <;>
      simp [passes_range]

/-- C10: `filter_books` returns a subsequence of its input: every output
record occurs in the input, input order is preserved, and no record is
duplicated or introduced. -/
theorem filter_books_sublist (docs : List Doc) (tags : Tags) :
    List.Sublist (filter_books docs tags) docs := by
  unfold filter_books
  by_cases hk : tags.kids = "No" <;> simp only [hk, if_true, if_false, reduceIte]
  · exact (List.filter_sublist _).trans (List.filter_sublist _)
  · exact List.filter_sublist _

/-- C7: `filter_books` is idempotent: filtering an already-filtered sequence
with the same tags returns it unchanged. -/
theorem filter_books_idempotent (docs : List Doc) (tags : Tags) :
    filter_books (filter_books docs tags) tags = filter_books docs tags := by
  have hself : ∀ l : List Doc,
      (∀ d ∈ l, d ∈ filter_books docs tags) → filter_books l tags = l := by
    intro l hl
    unfold filter_books
    by_cases hk : tags.kids = "No" <;> simp only [hk, if_true, if_false, reduceIte]
    · rw [List.filter_eq_self.mpr, List.filter_eq_self.mpr]
      · intro d hd
        exact (mem_filter_books docs tags d).mp (hl d hd) |>.2.1
      · intro d hd
        have hd0 := List.mem_filter.mp hd |>.1
        have h := (mem_filter_books docs tags d).mp (hl d hd0)
        simp [h.2.2 hk]
    · rw [List.filter_eq_self.mpr]
      intro d hd
      exact (mem_filter_books docs tags d).mp (hl d hd) |>.2.1
  exact hself (filter_books docs tags) (fun d hd => hd)

/-- C4: a record survives `filter_books` exactly when it is an input record
passing both range tests that, under the exclude-children flag, is not a
kids-style record; under any other flag the keyword exclusion is skipped.
The keyword list is the fixed one of the claim. -/
theorem filter_books_kids_exclusion (docs : List Doc) (tags : Tags) (d : Doc) :
    (d ∈ filter_books docs tags ↔
      d ∈ docs ∧ in_ranges d tags = true ∧
        (tags.kids = "No" → is_kids_book d = false)) ∧
    kids_keywords =
      ["children", "childrens", "kid", "kids",
       "juvenile", "coloring book", "colouring book",
       "notebook", "activity book", "for kids"] :=
  ⟨mem_filter_books docs tags d, rfl⟩

theorem pick_random_eq_pool_get (r : Nat) (docs : List Doc) (prev : Option String)
    (h : docs ≠ []) :
    pick_random r docs prev =
      (let f := docs.filter (fun d => decide (d.key ≠ prev))
       let pool := if f.isEmpty then docs else f
       pool.get? (r % pool.length)) := by
  unfold pick_random
  rw [if_neg]
  simp [List.isEmpty_iff, h]

/-- C8: the selector returns `none` exactly on the empty sequence; any
record it returns is one of the input records and, whenever at least one
input record's key differs from `prev`, the returned record's key also
differs from `prev`. -/
theorem pick_random_total_and_avoids_repeat (r : Nat) (docs : List Doc)
    (prev : Option String) :
    (pick_random r docs prev = none ↔ docs = []) ∧
    ∀ d, pick_random r docs prev = some d →
      d ∈ docs ∧ ((∃ e ∈ docs, e.key ≠ prev) → d.key ≠ prev) := by
  by_cases h : docs = []
  · subst h
    simp [pick_random]
  · rw [pick_random_eq_pool_get r docs prev h]
    simp only []
    set f := docs.filter (fun d => decide (d.key ≠ prev)) with hf
    set pool := if f.isEmpty then docs else f with hpool
    have hpool_ne : pool ≠ [] := by
      rw [hpool]
      by_cases hfe : f.isEmpty <;> simp [hfe, h]
      intro hcon
      rw [hcon] at hfe
      simp at hfe
    have hlen : 0 < pool.length := List.length_pos.mpr hpool_ne
    have hmod : r % pool.length < pool.length := Nat.mod_lt r hlen
    rw [List.get?_eq_get hmod]
    constructor
    · simp [h]
    · intro d hd
      have hd0 : pool.get ⟨r % pool.length, hmod⟩ = d := by
        exact Option.some.inj hd
      have hdm : d ∈ pool := hd0 ▸ List.get_mem pool _ hmod
      constructor
      · rw [hpool] at hdm
        by_cases hfe : f.isEmpty
        · simpa [hfe] using hdm
        · simp only [hfe, if_false, reduceIte] at hdm
          exact (List.mem_filter.mp (hf ▸ hdm)).1
      · rintro ⟨e, he, hek⟩
        have hef : e ∈ f := List.mem_filter.mpr ⟨he, by simpa using hek⟩
        have hfne : ¬ f.isEmpty := by
          simp [List.isEmpty_iff]
          exact List.ne_nil_of_mem hef
        rw [hpool, if_neg hfne] at hdm
        have := (List.mem_filter.mp hdm).2
        simpa using this

/-- C2 amended: `pick_random` ranks nothing: every candidate whose key
differs from the previous key is a possible pick, however low the
spec-described score of section 4.4 would rate it. -/
theorem pick_random_reaches_any_candidate (docs : List Doc) (prev : Option String)
    (d : Doc) (hd : d ∈ docs) (hk : d.key ≠ prev) :
    ∃ r, pick_random r docs prev = some d := by
  have hdocs : docs ≠ [] := List.ne_nil_of_mem hd
  have hdf : d ∈ docs.filter (fun x => decide (x.key ≠ prev)) :=
    List.mem_filter.mpr ⟨hd, by simpa using hk⟩
  have hfne : ¬ (docs.filter (fun x => decide (x.key ≠ prev))).isEmpty := by
    simp [List.isEmpty_iff]
    exact ⟨d, hd, hk⟩
  obtain ⟨i, hi⟩ := List.mem_iff_get.mp hdf
  refine ⟨i, ?_⟩
  rw [pick_random_eq_pool_get i docs prev hdocs]
  simp only [if_neg hfne]
  rw [Nat.mod_eq_of_lt i.isLt, List.get?_eq_get i.isLt]
  simpa using hi

/-- C2 counterexample: a run with eleven candidates in which the drawn pick
is the unique lowest-scoring candidate, so the draw is not restricted to
the top ten candidates by the spec's score. -/
theorem pick_random_no_top_ten_counterexample :
    pick_random 10 elevenDocs none = some lowDoc ∧
    elevenDocs.length = 11 ∧ lowDoc ∈ elevenDocs ∧
    ∀ d ∈ elevenDocs, d ≠ lowDoc → score_spec lowDoc < score_spec d := by
  decide

/-- C2 witness: the lowest-scoring of the eleven candidates is reachable. -/
theorem pick_random_reaches_any_candidate_witness :
    ∃ r, pick_random r elevenDocs none = some lowDoc :=
  pick_random_reaches_any_candidate elevenDocs none lowDoc (by decide) (by decide)

/-- C3 counterexample: on a record missing every optional field the
formatter does not return a `DisplayBook`: concatenating the catalog base
URL with the absent key raises a `TypeError`. -/
theorem format_book_missing_key_raises :
    format_book noFieldsDoc =
      Except.error "TypeError: can only concatenate str (not NoneType) to str" := rfl

/-- C3 amended: the formatter is total on records carrying an identifier:
with every other optional field absent it returns placeholder title and
year strings, an empty (not placeholder) authors string, no cover URL, and
the canonical URL derived from the identifier; on a record whose identifier
is also absent it raises instead. -/
theorem format_book_defaults (k : String) :
    format_book { noFieldsDoc with key := some k } =
      Except.ok
        { title := "Unknown Title", authors := "", year := Sum.inr "Unknown Year"
        , pages := none, cover := none, key := some k
        , url := "https://openlibrary.org" ++ k } := rfl

theorem genre_to_subject_injective : Function.Injective genre_to_subject := by
  decide

theorem mood_extra_subjects_nodup (m : Mood) : (mood_extra_subjects m).Nodup := by
  revert m; decide

theorem mood_extra_subjects_disjoint (m1 m2 : Mood) (h : m1 ≠ m2) :
    ∀ s ∈ mood_extra_subjects m1, s ∉ mood_extra_subjects m2 := by
  revert m1 m2; decide

/-- C6 counterexample: `build_tags` deduplicates neither sequence: repeating
the fantasy genre repeats its subject, and repeating the scary mood repeats
its extra subject. -/
theorem build_tags_no_dedup_counterexample :
    (build_tags dupPrefs).subjects = ["fantasy", "fantasy"] ∧
    ¬ (build_tags dupPrefs).subjects.Nodup ∧
    (build_tags dupPrefs).extra = ["horror", "horror"] ∧
    ¬ (build_tags dupPrefs).extra.Nodup := by
  decide

/-- C6 amended: `build_tags` maps genres and concatenates mood lists with
no deduplication step; because the genre table is injective and the mood
lists are pairwise disjoint and duplicate-free, both output sequences are
duplicate-free whenever the input label lists are. -/
theorem build_tags_nodup_of_nodup (prefs : Prefs)
    (hg : prefs.genres.Nodup) (hm : prefs.mood.Nodup) :
    (build_tags prefs).subjects.Nodup ∧ (build_tags prefs).extra.Nodup := by
  constructor
  · exact hg.map genre_to_subject_injective
  · refine List.nodup_flatten.mpr ⟨?_, ?_⟩
    · intro l hl
      obtain ⟨m, _, rfl⟩ := List.mem_map.mp hl
      exact mood_extra_subjects_nodup m
    · refine List.pairwise_map.mpr (hm.imp ?_)
      intro m1 m2 hne s hs1 hs2
      exact mood_extra_subjects_disjoint m1 m2 hne s hs1 hs2

/-- C6 witness: with the distinct labels of `distinctPrefs` both derived
sequences are duplicate-free. -/
theorem build_tags_nodup_witness :
    (build_tags distinctPrefs).subjects.Nodup ∧
      (build_tags distinctPrefs).extra.Nodup :=
  build_tags_nodup_of_nodup distinctPrefs (by decide) (by decide)

theorem findKey_insertDoc (m : List (String × Doc)) (k q : String) (d : Doc) :
    findKey q (insertDoc m k d) = if k = q then some d else findKey q m := by
  induction m with
  | nil =>
    by_cases h : k = q <;> simp [insertDoc, findKey, h]
  | cons p rest ih =>
    rcases p with ⟨k0, d0⟩
    by_cases h0 : k0 = k
    · subst h0
      by_cases hq : k0 = q <;> simp [insertDoc, findKey, hq]
    · by_cases hq : k0 = q
      · subst hq
        have hkq : ¬ k = k0 := fun hcon => h0 hcon.symm
        simp [insertDoc, findKey, h0, hkq]
      · simp [insertDoc, findKey, h0, hq, ih]

theorem keysOf_cons (p : String × Doc) (m : List (String × Doc)) :
    keysOf (p :: m) = p.1 :: keysOf m := rfl

theorem insertDoc_cons_hit (k : String) (d d0 : Doc) (rest : List (String × Doc)) :
    insertDoc ((k, d0) :: rest) k d = (k, d) :: rest := by
  simp [insertDoc]

theorem insertDoc_cons_miss (k0 k : String) (h : ¬ k0 = k) (d d0 : Doc)
    (rest : List (String × Doc)) :
    insertDoc ((k0, d0) :: rest) k d = (k0, d0) :: insertDoc rest k d := by
  simp [insertDoc, h]

theorem mem_keysOf_insertDoc (m : List (String × Doc)) (k : String) (d : Doc)
    (q : String) :
    q ∈ keysOf (insertDoc m k d) ↔ q ∈ keysOf m ∨ q = k := by
  induction m with
  | nil => simp [insertDoc, keysOf]
  | cons p rest ih =>
    rcases p with ⟨k0, d0⟩
    by_cases h0 : k0 = k
    · subst h0
      rw [insertDoc_cons_hit, keysOf_cons, keysOf_cons]
      simp only [List.mem_cons]
      tauto
    · rw [insertDoc_cons_miss k0 k h0, keysOf_cons, keysOf_cons]
      simp only [List.mem_cons, ih]
      tauto

theorem nodup_keysOf_insertDoc (m : List (String × Doc)) (k : String) (d : Doc)
    (h : (keysOf m).Nodup) : (keysOf (insertDoc m k d)).Nodup := by
  induction m with
  | nil => simp [insertDoc, keysOf]
  | cons p rest ih =>
    rcases p with ⟨k0, d0⟩
    rw [keysOf_cons, List.nodup_cons] at h
    by_cases h0 : k0 = k
    · subst h0
      rw [insertDoc_cons_hit, keysOf_cons, List.nodup_cons]
      exact h
    · rw [insertDoc_cons_miss k0 k h0, keysOf_cons, List.nodup_cons]
      refine ⟨?_, ih h.2⟩
      intro hcon
      rcases (mem_keysOf_insertDoc rest k d k0).mp hcon with hin | heq
      · exact h.1 hin
      · exact h0 heq

theorem entriesConsistent_insertDoc (m : List (String × Doc)) (k : String) (d : Doc)
    (hm : entriesConsistent m) (hd : truthyKey d = some k) :
    entriesConsistent (insertDoc m k d) := by
  induction m with
  | nil =>
    intro p hp
    simp [insertDoc] at hp
    subst hp
    exact hd
  | cons p0 rest ih =>
    rcases p0 with ⟨k0, d0⟩
    by_cases h0 : k0 = k
    · subst h0
      intro p hp
      simp [insertDoc] at hp
      rcases hp with hp | hp
      · subst hp; exact hd
      · exact hm p (List.mem_cons_of_mem _ hp)
    · intro p hp
      simp [insertDoc, h0] at hp
      rcases hp with hp | hp
      · subst hp; exact hm (k0, d0) (List.mem_cons_self _ _)
      · exact ih (fun q hq => hm q (List.mem_cons_of_mem _ hq)) p hp

theorem addDoc_invariant (m : List (String × Doc)) (d : Doc)
    (h : (keysOf m).Nodup ∧ entriesConsistent m) :
    (keysOf (addDoc m d)).Nodup ∧ entriesConsistent (addDoc m d) := by
  unfold addDoc
  cases ht : truthyKey d with
  | none => exact h
  | some k =>
    exact ⟨nodup_keysOf_insertDoc m k d h.1,
           entriesConsistent_insertDoc m k d h.2 ht⟩

theorem foldl_addDoc_invariant (ds : List Doc) (m : List (String × Doc))
    (h : (keysOf m).Nodup ∧ entriesConsistent m) :
    (keysOf (ds.foldl addDoc m)).Nodup ∧ entriesConsistent (ds.foldl addDoc m) := by
  induction ds generalizing m with
  | nil => exact h
  | cons d ds ih => exact ih (addDoc m d) (addDoc_invariant m d h)

theorem findKey_foldl_addDoc (ds : List Doc) (m : List (String × Doc)) (k : String) :
    findKey k (ds.foldl addDoc m) =
      (ds.reverse.find? (fun e => truthyKey e == some k)).or (findKey k m) := by
  induction ds generalizing m with
  | nil => simp
  | cons d ds ih =>
    rw [List.foldl_cons, ih, List.reverse_cons, List.find?_append, Option.or_assoc]
    congr 1
    unfold addDoc
    cases ht : truthyKey d with
    | none => simp [List.find?, ht]
    | some k0 =>
      by_cases hk : k0 = k
      · subst hk
        simp [List.find?, ht, findKey_insertDoc]
      · have hbeq : (k0 == k) = false := by
          simp [hk]
        simp [List.find?, ht, hbeq, findKey_insertDoc, hk]

theorem findKey_eq_some_of_mem (m : List (String × Doc)) (k : String) (d : Doc)
    (h : (keysOf m).Nodup) (hmem : (k, d) ∈ m) : findKey k m = some d := by
  induction m with
  | nil => simp at hmem
  | cons p rest ih =>
    rcases p with ⟨k0, d0⟩
    rw [keysOf_cons, List.nodup_cons] at h
    rcases List.mem_cons.mp hmem with heq | hmem0
    · injection heq with h1 h2
      subst h1
      subst h2
      simp [findKey]
    · have hk0 : ¬ k0 = k := by
        intro hcon
        subst hcon
        have hmem1 : k0 ∈ keysOf rest := List.mem_map.mpr ⟨(k0, d), hmem0, rfl⟩
        exact h.1 hmem1
      simp [findKey, hk0]
      exact ih h.2 hmem0

theorem mem_of_findKey_eq_some (m : List (String × Doc)) (k : String) (d : Doc)
    (h : findKey k m = some d) : (k, d) ∈ m := by
  induction m with
  | nil => simp [findKey] at h
  | cons p rest ih =>
    rcases p with ⟨k0, d0⟩
    by_cases h0 : k0 = k
    · subst h0
      simp [findKey] at h
      subst h
      exact List.mem_cons_self _ _
    · simp [findKey, h0] at h
      exact List.mem_cons_of_mem _ (ih h)

theorem mem_map_snd (m : List (String × Doc)) (d : Doc) :
    d ∈ m.map Prod.snd ↔ ∃ k, (k, d) ∈ m := by
  simp [List.mem_map, Prod.exists]

theorem map_truthyKey_eq (m : List (String × Doc)) (hc : entriesConsistent m) :
    (m.map Prod.snd).map truthyKey = (keysOf m).map some := by
  induction m with
  | nil => rfl
  | cons p rest ih =>
    simp only [List.map_cons, keysOf] at *
    rw [hc p (List.mem_cons_self _ _),
        ih (fun q hq => hc q (List.mem_cons_of_mem _ hq))]

theorem nested_foldl_eq (search : String → Option (List Doc)) (tags : Tags)
    (qs : List (Option String)) (m : List (String × Doc)) :
    qs.foldl
      (fun m subj =>
        match search (build_query tags subj) with
        | some ds => ds.foldl addDoc m
        | none => m)
      m =
      ((qs.map (fun subj => (search (build_query tags subj)).getD [])).flatten).foldl
        addDoc m := by
  induction qs generalizing m with
  | nil => rfl
  | cons q qs ih =>
    rw [List.foldl_cons, List.map_cons, List.flatten_cons, List.foldl_append, ih]
    congr 1
    cases h : search (build_query tags q) <;> simp [h]

theorem fetch_books_eq_stream_fold (search : String → Option (List Doc)) (tags : Tags) :
    fetch_books search tags =
      ((docStream search tags).foldl addDoc []).map Prod.snd := by
  unfold fetch_books docStream
  rw [nested_foldl_eq]

/-- C1 amended: across overlapping queries the aggregated candidate set
holds each identifier exactly once, but the record retained for an
identifier is the one returned by the LAST query (in aggregation order)
that produced it: a duplicate from a later query overwrites the
first-seen record. -/
theorem fetch_books_unique_keys_last_wins (search : String → Option (List Doc))
    (tags : Tags) (k : String) (d : Doc) :
    ((fetch_books search tags).map truthyKey).Nodup ∧
    ((d ∈ fetch_books search tags ∧ truthyKey d = some k) ↔
      (docStream search tags).reverse.find? (fun e => truthyKey e == some k) =
        some d) := by
  have hinv := foldl_addDoc_invariant (docStream search tags) []
    ⟨by simp [keysOf], by intro p hp; simp at hp⟩
  rw [fetch_books_eq_stream_fold]
  obtain ⟨hnd, hc⟩ := hinv
  have hfind : findKey k ((docStream search tags).foldl addDoc []) =
      (docStream search tags).reverse.find? (fun e => truthyKey e == some k) := by
    rw [findKey_foldl_addDoc]
    simp [findKey]
  refine ⟨?_, ?_, ?_⟩
  · rw [map_truthyKey_eq _ hc]
    exact hnd.map (Option.some_injective _)
  · rintro ⟨hmem, hkey⟩
    obtain ⟨k0, hk0⟩ := (mem_map_snd _ d).mp hmem
    have hk0k : k0 = k := by
      have h1 := hc (k0, d) hk0
      rw [hkey] at h1
      exact (Option.some.inj h1).symm
    subst hk0k
    rw [← hfind]
    exact findKey_eq_some_of_mem _ k0 d hnd hk0
  · intro hfound
    have hfk : findKey k ((docStream search tags).foldl addDoc []) = some d := by
      rw [hfind]; exact hfound
    have hmem := mem_of_findKey_eq_some _ k d hfk
    exact ⟨(mem_map_snd _ d).mpr ⟨k, hmem⟩, hc (k, d) hmem⟩

/-- C1 counterexample: the genre query and the later broad query return
distinct records under one identifier; the aggregated set retains the
later record, so the first-seen record IS overwritten. -/
theorem fetch_books_first_wins_counterexample :
    fetch_books searchCE tagsCE = [docSecond] ∧
    docSecond ≠ docFirst ∧ docFirst.key = docSecond.key := by
  decide

/-- C9: every record aggregated by `fetch_books` carries a present,
non-empty identifier; records with a missing or falsy key are discarded. -/
theorem fetch_books_keys_present (search : String → Option (List Doc)) (tags : Tags)
    (d : Doc) (hd : d ∈ fetch_books search tags) :
    ∃ s, d.key = some s ∧ s ≠ "" := by
  have hinv := foldl_addDoc_invariant (docStream search tags) []
    ⟨by simp [keysOf], by intro p hp; simp at hp⟩
  rw [fetch_books_eq_stream_fold] at hd
  obtain ⟨k, hk⟩ := (mem_map_snd _ d).mp hd
  have ht := hinv.2 (k, d) hk
  unfold truthyKey at ht
  cases hkey : d.key with
  | none => rw [hkey] at ht; simp at ht
  | some s =>
    rw [hkey] at ht
    by_cases hs : s = ""
    · simp [hs] at ht
    · exact ⟨s, rfl, hs⟩

/-- C9 witness: the record the counterexample run aggregates indeed has a
present, non-empty key. -/
theorem fetch_books_keys_present_witness :
    ∃ s, docSecond.key = some s ∧ s ≠ "" :=
  fetch_books_keys_present searchCE tagsCE docSecond (by decide)

end BookRec
